import Mathlib

/-!
Verification development for the `backups` repository.

The repository's core script (`portal_item_backup_zip.py`) performs one
backup run: it walks a source tree, copies files whose name passes a
validity check into a timestamped staging folder, writes the staged files
into a zip archive (flat, deleting each staged copy after it is written),
removes the staging folder, and finally prunes the oldest archives so that
at most `retention_limit` zip files remain.

This file embeds those operations shallowly:
* filenames are `String`s (lists of characters);
* the filename check `len(file) == 32 and int(file, 16) succeeds` is
  embedded by `selectName`, with `pyIntHexOk` modelling CPython's
  `int(s, 16)` acceptance grammar (optional surrounding whitespace,
  optional sign, optional `0x`/`0X` marker, hex digits separated by
  single underscores);
* the copy loop of `copy_json_files` is `copyJsonFiles`, with staging
  modelled as an association list from base filename to file content
  (copying into a directory overwrites an existing file of the same name);
* the zip build loop is `zipBuild` (and `zipBuildF` for the variant where
  a write may raise), archive entries being name/content pairs;
* the retention pruning block is `pruneDeleted` / `pruneRemaining`, with
  `filelist.sort()` embedded as an ascending sort under the lexicographic
  order on `String`.
-/

namespace Backups

/-- Characters accepted as hexadecimal digits by CPython's base-16 digit
scanner: `0`-`9`, `a`-`f`, `A`-`F`. -/
def isPyHexDigit (c : Char) : Bool :=
  (('0' ≤ c) && (c ≤ '9')) || (('a' ≤ c) && (c ≤ 'f')) || (('A' ≤ c) && (c ≤ 'F'))

/-- ASCII whitespace stripped by `int(str, base)` before parsing. -/
def isPySpace (c : Char) : Bool :=
  (c == ' ') || (c == '\t') || (c == '\n') || (c == '\r') || (c == '\x0b') || (c == '\x0c')

/-- After the first digit of a base-16 numeral: the remaining characters
must be hex digits, with single underscores permitted between digits. -/
def hexDigitsRest : List Char → Bool
  | [] => true
  | c :: rest =>
    if c = '_' then
      match rest with
      | [] => false
      | d :: rest2 => isPyHexDigit d && hexDigitsRest rest2
    else isPyHexDigit c && hexDigitsRest rest

/-- A non-empty base-16 numeral: a hex digit followed by `hexDigitsRest`. -/
def hexNumeral : List Char → Bool
  | [] => false
  | c :: rest => isPyHexDigit c && hexDigitsRest rest

/-- What may follow a `0x`/`0X` marker: an optional single underscore,
then a non-empty numeral. -/
def hexMarkTail : List Char → Bool
  | [] => false
  | c :: rest => if c = '_' then hexNumeral rest else hexNumeral (c :: rest)

/-- The part of the string after an optional sign: either `0x`/`0X`
followed by `hexMarkTail`, or a plain numeral. -/
def afterSign : List Char → Bool
  | c1 :: c2 :: rest =>
    if (c1 == '0') && ((c2 == 'x') || (c2 == 'X')) then hexMarkTail rest
    else hexNumeral (c1 :: c2 :: rest)
  | s => hexNumeral s

/-- Strip `isPySpace` characters from both ends of a character list. -/
def stripEnds (s : List Char) : List Char :=
  ((s.dropWhile isPySpace).reverse.dropWhile isPySpace).reverse

/-- Embedding of CPython's `int(s, 16)` success condition: whitespace is
stripped, then an optional sign, an optional `0x`/`0X` marker, and a
non-empty run of hex digits with single underscores between digits. -/
def pyIntHexOk (s : List Char) : Bool :=
  match stripEnds s with
  | [] => false
  | c :: rest =>
    if (c == '+') || (c == '-') then afterSign rest
    else afterSign (c :: rest)

/-- The file-selection condition of `copy_json_files`
(`portal_item_backup_zip.py` lines 199-202): the filename has exactly 32
characters and `int(file, 16)` does not raise `ValueError`. -/
def selectName (name : String) : Bool :=
  (name.data.length == 32) && pyIntHexOk name.data

/-- One file met during `os.walk` of the source tree: the directory part
of its path, its base filename, its content (abstract), and whether the
environment makes `shutil.copy2` of this file raise an `OSError`. -/
structure WalkFile where
  dirs : List String
  name : String
  content : Nat
  copyFails : Bool
deriving DecidableEq

/-- Staging folder contents: base filename to content.  Copying a file
into a directory that already holds one of the same name overwrites it in
place; otherwise the new file is appended. -/
def upsert : List (String × Nat) → String → Nat → List (String × Nat)
  | [], n, c => [(n, c)]
  | p :: rest, n, c => if p.1 = n then (n, c) :: rest else p :: upsert rest n c

/-- Embedding of the loop body of `copy_json_files`
(`portal_item_backup_zip.py` lines 187-215): for each walked file, if the
name has length 32, `int(file, 16)` is attempted; a `ValueError` is
caught and the file skipped, otherwise `shutil.copy2` runs.  A failure of
the copy itself is not a `ValueError`, so it propagates and aborts the
loop (`Except.error`). -/
def copyJsonFiles : List WalkFile → List (String × Nat) → Except Unit (List (String × Nat))
  | [], st => Except.ok st
  | f :: fs, st =>
    if f.name.data.length == 32 then
      if pyIntHexOk f.name.data then
        if f.copyFails then Except.error ()
        else copyJsonFiles fs (upsert st f.name f.content)
      else copyJsonFiles fs st
    else copyJsonFiles fs st

/-- The staging contents produced by a run of `copy_json_files` in which
no copy operation fails: each selected file is upserted in walk order. -/
def stageFold (files : List WalkFile) (st : List (String × Nat)) : List (String × Nat) :=
  files.foldl (fun acc f => if selectName f.name then upsert acc f.name f.content else acc) st

/-- A file sitting in the staging folder when the zip build starts: the
directory components of its path (the staging folder's path) and its base
filename, plus its content. -/
structure StagedFile where
  dirs : List String
  base : String
  content : Nat
deriving DecidableEq

/-- State of the zip build loop: the entries written to the open archive
so far (name/content pairs) and the files still present in the staging
folder. -/
structure ZipState where
  entries : List (String × Nat)
  staged : List StagedFile

/-- One iteration of the build loop (`portal_item_backup_zip.py` lines
240-253): `outzip.write(itemfile, arcname=itemfile.name)` appends an
entry under the base filename only, then `itemfile.unlink()` removes the
file from the staging folder. -/
def zipWriteStep (st : ZipState) (f : StagedFile) : ZipState :=
  { entries := st.entries ++ [(f.base, f.content)],
    staged := st.staged.filter (fun g => !(g == f)) }

/-- The whole build loop, iterating over the staging folder's listing,
starting from an empty archive and the staging folder holding `files`. -/
def zipBuild (files : List StagedFile) : ZipState :=
  files.foldl zipWriteStep { entries := [], staged := files }

/-- The build block followed by `arch_folder.rmdir()` (line 259): the
second component records whether the `rmdir` succeeds, which it does
exactly when the staging folder is empty. -/
def afterArchiveCleanup (files : List StagedFile) : ZipState × Bool :=
  let st := zipBuild files
  (st, st.staged.isEmpty)

/-- Whether a string contains a path separator, used to state that
archive entry names have no directory components. -/
def hasSep (s : String) : Bool :=
  s.data.any (fun c => (c == '\\') || (c == '/'))

/-- State of the zip build loop when an individual `outzip.write` may
raise: as `ZipState`, plus whether an exception has been raised (after
which no further iteration runs). -/
structure ZipStateF where
  entries : List (String × Nat)
  staged : List StagedFile
  failed : Bool

/-- One iteration of the build loop with failure injection `fail`: there
is no `try`/`except` around the loop body (lines 236-256), so once a
write raises, the exception propagates and the rest of the loop body and
all later iterations are skipped. -/
def zipWriteStepF (fail : StagedFile → Bool) (st : ZipStateF) (f : StagedFile) : ZipStateF :=
  if st.failed then st
  else if fail f then { st with failed := true }
  else { entries := st.entries ++ [(f.base, f.content)],
         staged := st.staged.filter (fun g => !(g == f)),
         failed := false }

/-- The build loop with failure injection. -/
def zipBuildF (fail : StagedFile → Bool) (files : List StagedFile) : ZipStateF :=
  files.foldl (zipWriteStepF fail) { entries := [], staged := files, failed := false }

/-- The archive file on disk after the `with ZipFile(...)` block ends
(normally or by exception): the file created by opening `arch_zip` in
mode `w` is never removed by the script, so it always remains, holding
the entries completely written before any failure. -/
def archiveOnDiskF (fail : StagedFile → Bool) (files : List StagedFile) : Option (List (String × Nat)) :=
  some (zipBuildF fail files).entries

/-- Whether the run aborted with the propagated write exception. -/
def raisedErrorF (fail : StagedFile → Bool) (files : List StagedFile) : Bool :=
  (zipBuildF fail files).failed

/-- Whether `arch_folder.rmdir()` (line 259) runs and succeeds: it is
only reached when no exception was raised, and succeeds when the staging
folder is empty. -/
def folderRemovedF (fail : StagedFile → Bool) (files : List StagedFile) : Bool :=
  !(zipBuildF fail files).failed && (zipBuildF fail files).staged.isEmpty

/-- The destination directory between runs: the staging folders present
and the names of the zip archives present. -/
structure Dest where
  folders : List String
  zips : List String
deriving DecidableEq

/-- What one run reports about its staging and archive naming. -/
structure RunReport where
  stagingName : String
  stagingErrorRaised : Bool
  archiveOverwritten : Bool
deriving DecidableEq

/-- One run of the script restricted to its naming/creation behaviour,
for a fixed timestamp string `ts` (minute resolution).
`arch_name = "items_" + ts` (line 87); if the staging folder already
exists the `mkdir` is skipped and the folder silently reused, and a
failing `mkdir` is swallowed by the bare `except` (lines 163-172), so no
exception ever escapes this step; `ZipFile(arch_zip, mode='w')` (line
236) truncates an existing archive of the same name without any check;
finally `arch_folder.rmdir()` (line 259) removes the staging folder. -/
def runOnce (ts : String) (d : Dest) : Dest × RunReport :=
  let archName := "items_" ++ ts
  let zipName := archName ++ ".zip"
  let existedFolder : Bool := List.elem archName d.folders
  let folders1 := if existedFolder then d.folders else archName :: d.folders
  let existedZip : Bool := List.elem zipName d.zips
  let zips1 := if existedZip then d.zips else zipName :: d.zips
  ({ folders := folders1.erase archName, zips := zips1 },
   { stagingName := archName,
     stagingErrorRaised := false,
     archiveOverwritten := existedZip })

/-- Embedding of `filelist.sort()` (line 276): ascending sort of the
archive names under the lexicographic order on strings. -/
def sortFiles (filelist : List String) : List String :=
  List.insertionSort (· ≤ ·) filelist

/-- The retention pruning block (`portal_item_backup_zip.py` lines
270-289): sort the zip names ascending; if more than `retention_limit`
are present, the slice `filelist[:(len(filelist) - retention_limit)]` is
deleted; otherwise nothing is.  Returns the deleted names. -/
def pruneDeleted (filelist : List String) (retentionLimit : Nat) : List String :=
  if retentionLimit < (sortFiles filelist).length then
    (sortFiles filelist).take ((sortFiles filelist).length - retentionLimit)
  else []

/-- The archive files remaining in the destination directory after the
pruning block: those present at prune time that were not deleted. -/
def pruneRemaining (filelist : List String) (retentionLimit : Nat) : List String :=
  filelist.filter (fun f => !((pruneDeleted filelist retentionLimit).elem f))

/-- The staging folder's contents viewed as the file listing the zip
build iterates over: every staged file sits directly in the staging
folder `dirs`, under its base filename. -/
def stagedOf (st : List (String × Nat)) (dirs : List String) : List StagedFile :=
  st.map (fun p => { dirs := dirs, base := p.1, content := p.2 })

/-! ### Lemmas about the filename validity check -/

lemma beq_eq_false_of_hex {c d : Char} (h : isPyHexDigit c = true)
    (hd : isPyHexDigit d = false) : (c == d) = false := by
  cases hcd : c == d
  · rfl
  · have hc : c = d := eq_of_beq hcd
    rw [hc, hd] at h
    simp at h

lemma ne_of_hex {c d : Char} (h : isPyHexDigit c = true)
    (hd : isPyHexDigit d = false) : c ≠ d := by
  intro he
  rw [he] at h
  exact Bool.noConfusion (h.symm.trans hd)

lemma isPySpace_eq_false_of_hex {c : Char} (h : isPyHexDigit c = true) :
    isPySpace c = false := by
  cases hs : isPySpace c
  · rfl
  · simp only [isPySpace, Bool.or_eq_true, beq_iff_eq] at hs
    rcases hs with ((((h1 | h1) | h1) | h1) | h1) | h1 <;> rw [h1] at h <;>
      simp [isPyHexDigit] at h

lemma hexDigitsRest_all_hex : ∀ {s : List Char},
    (∀ c ∈ s, isPyHexDigit c = true) → hexDigitsRest s = true := by
  intro s
  induction s with
  | nil => intro _; rfl
  | cons c rest ih =>
    intro h
    have hc : isPyHexDigit c = true := h c (List.mem_cons_self c rest)
    have hne : c ≠ '_' := ne_of_hex hc (by decide)
    unfold hexDigitsRest
    rw [if_neg hne, hc, ih (fun d hd => h d (List.mem_cons_of_mem c hd))]
    rfl

lemma stripEnds_no_space {s : List Char}
    (h : ∀ c ∈ s, isPySpace c = false) : stripEnds s = s := by
  unfold stripEnds
  have h1 : s.dropWhile isPySpace = s := by
    cases s with
    | nil => rfl
    | cons c rest =>
      rw [List.dropWhile_cons, if_neg (by simp [h c (List.mem_cons_self c rest)])]
  rw [h1]
  have h2 : s.reverse.dropWhile isPySpace = s.reverse := by
    cases hs : s.reverse with
    | nil => rfl
    | cons d t =>
      have hd : d ∈ s := by
        rw [← List.mem_reverse, hs]
        exact List.mem_cons_self d t
      rw [List.dropWhile_cons, if_neg (by simp [h d hd])]
  rw [h2, List.reverse_reverse]

lemma pyIntHexOk_all_hex {s : List Char} (hne : s ≠ [])
    (h : ∀ c ∈ s, isPyHexDigit c = true) : pyIntHexOk s = true := by
  have hns : ∀ c ∈ s, isPySpace c = false := fun c hc => isPySpace_eq_false_of_hex (h c hc)
  unfold pyIntHexOk
  rw [stripEnds_no_space hns]
  cases s with
  | nil => exact absurd rfl hne
  | cons c rest =>
    have hc : isPyHexDigit c = true := h c (List.mem_cons_self c rest)
    have hplus : (c == '+') = false := beq_eq_false_of_hex hc (by decide)
    have hminus : (c == '-') = false := beq_eq_false_of_hex hc (by decide)
    simp only [hplus, hminus, Bool.or_self, Bool.false_or, if_neg Bool.false_ne_true]
    cases rest with
    | nil =>
      simp only [afterSign, hexNumeral, hc, Bool.true_and]
      rfl
    | cons c2 rest2 =>
      have hc2 : isPyHexDigit c2 = true := h c2 (List.mem_cons_of_mem c (List.mem_cons_self c2 rest2))
      have hx : (c2 == 'x') = false := beq_eq_false_of_hex hc2 (by decide)
      have hX : (c2 == 'X') = false := beq_eq_false_of_hex hc2 (by decide)
      simp only [afterSign, hx, hX, Bool.or_self, Bool.and_false,
        if_neg Bool.false_ne_true, hexNumeral, hc, Bool.true_and]
      exact hexDigitsRest_all_hex (fun d hd => h d (List.mem_cons_of_mem c hd))

lemma selectName_of_hex {name : String} (hlen : name.data.length = 32)
    (hhex : ∀ c ∈ name.data, isPyHexDigit c = true) : selectName name = true := by
  have hne : name.data ≠ [] := by
    intro h0
    rw [h0] at hlen
    simp at hlen
  unfold selectName
  rw [pyIntHexOk_all_hex hne hhex]
  simp [hlen]

/-! ### Lemmas about the staging copy loop -/

lemma lookup_upsert_self (st : List (String × Nat)) (n : String) (c : Nat) :
    List.lookup n (upsert st n c) = some c := by
  induction st with
  | nil => simp [upsert, List.lookup]
  | cons p rest ih =>
    by_cases hp : p.1 = n
    · simp [upsert, hp, List.lookup]
    · simp only [upsert, if_neg hp]
      rw [List.lookup_cons]
      have : (n == p.1) = false := by
        simp only [beq_eq_false_iff_ne, ne_eq]
        exact fun he => hp he.symm
      rw [this]
      exact ih

lemma lookup_upsert_ne (st : List (String × Nat)) {m n : String} (c : Nat)
    (h : m ≠ n) : List.lookup m (upsert st n c) = List.lookup m st := by
  induction st with
  | nil =>
    simp only [upsert, List.lookup]
    rw [show (m == n) = false by simp [h]]
  | cons p rest ih =>
    by_cases hp : p.1 = n
    · simp only [upsert, if_pos hp]
      rw [List.lookup_cons, List.lookup_cons]
      rw [show (m == n) = false by simp [h], show (m == p.1) = false by simp [hp ▸ h]]
    · simp only [upsert, if_neg hp]
      rw [List.lookup_cons, List.lookup_cons]
      cases hmp : m == p.1
      · exact ih
      · rfl

lemma mem_keys_upsert_self (st : List (String × Nat)) (n : String) (c : Nat) :
    n ∈ (upsert st n c).map Prod.fst := by
  induction st with
  | nil => simp [upsert]
  | cons p rest ih =>
    by_cases hp : p.1 = n
    · simp [upsert, hp]
    · simp only [upsert, if_neg hp, List.map_cons, List.mem_cons]
      exact Or.inr ih

lemma mem_keys_upsert_of_mem (st : List (String × Nat)) {m : String} (n : String) (c : Nat)
    (h : m ∈ st.map Prod.fst) : m ∈ (upsert st n c).map Prod.fst := by
  induction st with
  | nil => simp at h
  | cons p rest ih =>
    by_cases hp : p.1 = n
    · simp only [upsert, if_pos hp, List.map_cons, List.mem_cons]
      simp only [List.map_cons, List.mem_cons] at h
      rcases h with h | h
      · exact Or.inl (hp ▸ h)
      · exact Or.inr h
    · simp only [upsert, if_neg hp, List.map_cons, List.mem_cons]
      simp only [List.map_cons, List.mem_cons] at h
      rcases h with h | h
      · exact Or.inl h
      · exact Or.inr (ih h)

lemma keys_upsert_subset (st : List (String × Nat)) (n : String) (c : Nat) :
    (upsert st n c).map Prod.fst ⊆ n :: st.map Prod.fst := by
  induction st with
  | nil => simp [upsert]
  | cons p rest ih =>
    by_cases hp : p.1 = n
    · intro m hm
      simp only [upsert, if_pos hp, List.map_cons, List.mem_cons] at hm
      rcases hm with hm | hm
      · simp [hm]
      · simp [hm]
    · intro m hm
      simp only [upsert, if_neg hp, List.map_cons, List.mem_cons] at hm
      rcases hm with hm | hm
      · simp [List.mem_cons, hm]
      · have := ih hm
        simp only [List.mem_cons] at this ⊢
        tauto

lemma nodup_keys_upsert (st : List (String × Nat)) (n : String) (c : Nat)
    (h : (st.map Prod.fst).Nodup) : ((upsert st n c).map Prod.fst).Nodup := by
  induction st with
  | nil => simp [upsert]
  | cons p rest ih =>
    simp only [List.map_cons, List.nodup_cons] at h
    by_cases hp : p.1 = n
    · simp only [upsert, if_pos hp, List.map_cons, List.nodup_cons]
      exact ⟨hp ▸ h.1, h.2⟩
    · simp only [upsert, if_neg hp, List.map_cons, List.nodup_cons]
      refine ⟨fun hmem => ?_, ih h.2⟩
      have := keys_upsert_subset rest n c hmem
      simp only [List.mem_cons] at this
      rcases this with h1 | h1
      · exact hp h1
      · exact h.1 h1

lemma lookup_mem {st : List (String × Nat)} {n : String} {c : Nat}
    (h : List.lookup n st = some c) : (n, c) ∈ st := by
  induction st with
  | nil => simp [List.lookup] at h
  | cons p rest ih =>
    rw [show p = (p.1, p.2) from rfl, List.lookup_cons] at h
    cases hnp : n == p.1
    · rw [hnp] at h
      exact List.mem_cons_of_mem _ (ih h)
    · rw [hnp] at h
      simp only [Option.some.injEq] at h
      have hn : n = p.1 := eq_of_beq hnp
      rw [List.mem_cons]
      exact Or.inl (by rw [← h, hn])

lemma copyJsonFiles_ok : ∀ (files : List WalkFile) (st : List (String × Nat)),
    (∀ g ∈ files, g.copyFails = false) →
    copyJsonFiles files st = Except.ok (stageFold files st) := by
  intro files
  induction files with
  | nil => intro st _; rfl
  | cons f fs ih =>
    intro st hnf
    have hf : f.copyFails = false := hnf f (List.mem_cons_self f fs)
    have hfs : ∀ g ∈ fs, g.copyFails = false :=
      fun g hg => hnf g (List.mem_cons_of_mem f hg)
    unfold copyJsonFiles stageFold
    rw [List.foldl_cons]
    cases h32 : f.name.data.length == 32
    · rw [if_neg Bool.false_ne_true]
      rw [show selectName f.name = false by unfold selectName; rw [h32]; rfl]
      simp only [if_neg Bool.false_ne_true]
      exact ih st hfs
    · rw [if_pos rfl]
      cases hhex : pyIntHexOk f.name.data
      · rw [if_neg Bool.false_ne_true]
        rw [show selectName f.name = false by unfold selectName; rw [hhex, Bool.and_false]]
        simp only [if_neg Bool.false_ne_true]
        exact ih st hfs
      · rw [if_pos rfl, hf]
        rw [show selectName f.name = true by unfold selectName; rw [h32, hhex]; rfl]
        simp only [if_neg Bool.false_ne_true, if_pos rfl]
        exact ih (upsert st f.name f.content) hfs

lemma mem_keys_stageFold_of_mem : ∀ (files : List WalkFile) (st : List (String × Nat))
    {m : String}, m ∈ st.map Prod.fst → m ∈ (stageFold files st).map Prod.fst := by
  intro files
  induction files with
  | nil => intro st m h; exact h
  | cons f fs ih =>
    intro st m h
    unfold stageFold
    rw [List.foldl_cons]
    by_cases hsel : selectName f.name = true
    · rw [if_pos hsel]
      exact ih _ (mem_keys_upsert_of_mem st f.name f.content h)
    · rw [if_neg hsel]
      exact ih _ h

lemma mem_keys_stageFold : ∀ (files : List WalkFile) (st : List (String × Nat))
    {f : WalkFile}, f ∈ files → selectName f.name = true →
    f.name ∈ (stageFold files st).map Prod.fst := by
  intro files
  induction files with
  | nil => intro st f h; simp at h
  | cons g fs ih =>
    intro st f hmem hsel
    rcases List.mem_cons.mp hmem with h | h
    · subst h
      unfold stageFold
      rw [List.foldl_cons, if_pos hsel]
      exact mem_keys_stageFold_of_mem fs _ (mem_keys_upsert_self st f.name f.content)
    · unfold stageFold
      rw [List.foldl_cons]
      by_cases hg : selectName g.name = true
      · rw [if_pos hg]
        exact ih _ h hsel
      · rw [if_neg hg]
        exact ih _ h hsel

lemma nodup_keys_stageFold : ∀ (files : List WalkFile) (st : List (String × Nat)),
    (st.map Prod.fst).Nodup → ((stageFold files st).map Prod.fst).Nodup := by
  intro files
  induction files with
  | nil => intro st h; exact h
  | cons f fs ih =>
    intro st h
    unfold stageFold
    rw [List.foldl_cons]
    by_cases hsel : selectName f.name = true
    · rw [if_pos hsel]
      exact ih _ (nodup_keys_upsert st f.name f.content h)
    · rw [if_neg hsel]
      exact ih _ h

lemma lookup_stageFold_none (n : String) : ∀ (files : List WalkFile) (st : List (String × Nat)),
    files.filter (fun g => selectName g.name && (g.name == n)) = [] →
    List.lookup n (stageFold files st) = List.lookup n st := by
  intro files
  induction files with
  | nil => intro st _; rfl
  | cons f fs ih =>
    intro st hfil
    rw [List.filter_cons] at hfil
    by_cases hP : (selectName f.name && (f.name == n)) = true
    · rw [if_pos hP] at hfil
      exact absurd hfil (List.cons_ne_nil f _)
    · rw [if_neg hP] at hfil
      unfold stageFold
      rw [List.foldl_cons]
      by_cases hsel : selectName f.name = true
      · rw [if_pos hsel]
        have hne : f.name ≠ n := by
          intro he
          apply hP
          rw [hsel, Bool.true_and]
          exact beq_iff_eq.mpr he
        exact (ih _ hfil).trans (lookup_upsert_ne st f.content (fun he => hne he.symm))
      · rw [if_neg hsel]
        exact ih st hfil

lemma lookup_stageFold_last {n : String} : ∀ (files : List WalkFile) (st : List (String × Nat))
    {g : WalkFile},
    (files.filter (fun h => selectName h.name && (h.name == n))).getLast? = some g →
    List.lookup n (stageFold files st) = some g.content := by
  intro files
  induction files with
  | nil => intro st g h; simp at h
  | cons f fs ih =>
    intro st g h
    rw [List.filter_cons] at h
    by_cases hP : (selectName f.name && (f.name == n)) = true
    · rw [if_pos hP] at h
      have hand := hP
      rw [Bool.and_eq_true] at hand
      obtain ⟨hsel, hname⟩ := hand
      have hfn : f.name = n := eq_of_beq hname
      cases hfil : fs.filter (fun h => selectName h.name && (h.name == n)) with
      | nil =>
        rw [hfil, List.getLast?_singleton] at h
        simp only [Option.some.injEq] at h
        subst h
        unfold stageFold
        rw [List.foldl_cons, if_pos hsel]
        refine (lookup_stageFold_none n fs _ hfil).trans ?_
        rw [← hfn]
        exact lookup_upsert_self st f.name f.content
      | cons q qs =>
        rw [hfil, List.getLast?_cons_cons] at h
        have h2 : (fs.filter (fun h => selectName h.name && (h.name == n))).getLast? = some g := by
          rw [hfil]
          exact h
        unfold stageFold
        rw [List.foldl_cons, if_pos hsel]
        exact ih _ h2
    · rw [if_neg hP] at h
      unfold stageFold
      rw [List.foldl_cons]
      by_cases hsel : selectName f.name = true
      · rw [if_pos hsel]
        exact ih _ h
      · rw [if_neg hsel]
        exact ih _ h

lemma filter_key_singleton : ∀ (st : List (String × Nat)) (n : String) (c : Nat),
    (st.map Prod.fst).Nodup → (n, c) ∈ st →
    st.filter (fun p => p.1 == n) = [(n, c)] := by
  intro st
  induction st with
  | nil => intro n c _ h; simp at h
  | cons p rest ih =>
    intro n c hnd hmem
    simp only [List.map_cons, List.nodup_cons] at hnd
    rw [List.filter_cons]
    rcases List.mem_cons.mp hmem with h | h
    · subst h
      rw [if_pos (by simp)]
      rw [List.filter_eq_nil_iff.mpr ?_]
      · intro q hq hqn
        apply hnd.1
        have : q.1 = n := by simpa using hqn
        rw [← this]
        exact List.mem_map.mpr ⟨q, hq, rfl⟩
    · have hne : p.1 ≠ n := by
        intro he
        apply hnd.1
        rw [he]
        exact List.mem_map.mpr ⟨(n, c), h, rfl⟩
      rw [if_neg (by simp [hne])]
      exact ih n c hnd.2 h

/-! ### Lemmas about the zip build loop -/

lemma foldl_zipWriteStep_entries : ∀ (files : List StagedFile) (st : ZipState),
    (List.foldl zipWriteStep st files).entries
      = st.entries ++ files.map (fun f => (f.base, f.content)) := by
  intro files
  induction files with
  | nil => intro st; simp
  | cons f fs ih =>
    intro st
    rw [List.foldl_cons, ih]
    simp [zipWriteStep, List.append_assoc]

lemma foldl_zipWriteStep_staged : ∀ (files : List StagedFile) (st : ZipState),
    (List.foldl zipWriteStep st files).staged
      = st.staged.filter (fun g => !(List.elem g files)) := by
  intro files
  induction files with
  | nil => intro st; simp [List.elem]
  | cons f fs ih =>
    intro st
    rw [List.foldl_cons, ih]
    show (st.staged.filter (fun g => !(g == f))).filter (fun g => !(List.elem g fs))
      = st.staged.filter (fun g => !(List.elem g (f :: fs)))
    rw [List.filter_filter]
    refine List.filter_congr (fun g _ => ?_)
    cases hgf : g == f <;> simp only [List.elem_cons, hgf] <;>
      simp [Bool.and_comm]

lemma zipBuild_entries (files : List StagedFile) :
    (zipBuild files).entries = files.map (fun f => (f.base, f.content)) := by
  unfold zipBuild
  rw [foldl_zipWriteStep_entries]
  simp

lemma zipBuild_staged (files : List StagedFile) : (zipBuild files).staged = [] := by
  unfold zipBuild
  rw [foldl_zipWriteStep_staged]
  show files.filter (fun g => !(List.elem g files)) = []
  apply List.filter_eq_nil_iff.mpr
  intro g hg
  simp [List.elem_eq_mem, hg]

lemma foldl_zipWriteStepF_frozen (fail : StagedFile → Bool) :
    ∀ (files : List StagedFile) (st : ZipStateF),
    st.failed = true → List.foldl (zipWriteStepF fail) st files = st := by
  intro files
  induction files with
  | nil => intro st _; rfl
  | cons f fs ih =>
    intro st h
    rw [List.foldl_cons, show zipWriteStepF fail st f = st by simp [zipWriteStepF, h]]
    exact ih st h

lemma foldl_zipWriteStepF_ok (fail : StagedFile → Bool) :
    ∀ (files : List StagedFile) (st : ZipStateF),
    st.failed = false → (∀ g ∈ files, fail g = false) →
    (List.foldl (zipWriteStepF fail) st files).failed = false ∧
    (List.foldl (zipWriteStepF fail) st files).entries
      = st.entries ++ files.map (fun g => (g.base, g.content)) := by
  intro files
  induction files with
  | nil => intro st h _; exact ⟨h, by simp⟩
  | cons f fs ih =>
    intro st h hok
    have hff : fail f = false := hok f (List.mem_cons_self f fs)
    rw [List.foldl_cons]
    have hstep : zipWriteStepF fail st f =
        { entries := st.entries ++ [(f.base, f.content)],
          staged := st.staged.filter (fun g => !(g == f)),
          failed := false } := by
      simp [zipWriteStepF, h, hff]
    rw [hstep]
    obtain ⟨h1, h2⟩ := ih
      { entries := st.entries ++ [(f.base, f.content)],
        staged := st.staged.filter (fun g => !(g == f)),
        failed := false } rfl (fun g hg => hok g (List.mem_cons_of_mem f hg))
    exact ⟨h1, by rw [h2]; simp [List.append_assoc]⟩

/-! ### Lemmas about the retention sort -/

lemma sortFiles_sorted (l : List String) : List.Sorted (· ≤ ·) (sortFiles l) :=
  List.sorted_insertionSort _ l

lemma sortFiles_perm (l : List String) : (sortFiles l).Perm l :=
  List.perm_insertionSort _ l

lemma length_sortFiles (l : List String) : (sortFiles l).length = l.length :=
  List.length_insertionSort _ l

/-! ### Claim theorems -/

/-- C1: for every destination directory containing K archive names and
every positive retention limit R, the pruning step deletes nothing when
K ≤ R; when K > R it deletes exactly K − R files, namely the first K − R
names of the listing sorted in ascending lexicographic order (`sortFiles`
is sorted under `≤` and is a permutation of the listing). -/
theorem retention_prune_deletes_oldest_beyond_limit
    (filelist : List String) (R : Nat) (hR : 0 < R) :
    (filelist.length ≤ R → pruneDeleted filelist R = []) ∧
    (R < filelist.length →
      (pruneDeleted filelist R).length = filelist.length - R ∧
      pruneDeleted filelist R = (sortFiles filelist).take (filelist.length - R) ∧
      List.Sorted (· ≤ ·) (sortFiles filelist) ∧
      (sortFiles filelist).Perm filelist) := by
  constructor
  · intro hK
    unfold pruneDeleted
    rw [if_neg (by rw [length_sortFiles]; omega)]
  · intro hK
    refine ⟨?_, ?_, sortFiles_sorted filelist, sortFiles_perm filelist⟩
    · unfold pruneDeleted
      rw [if_pos (by rw [length_sortFiles]; exact hK), length_sortFiles,
        List.length_take, length_sortFiles]
      exact min_eq_left (Nat.sub_le _ _)
    · unfold pruneDeleted
      rw [if_pos (by rw [length_sortFiles]; exact hK), length_sortFiles]

/-- Witness for C1 at a concrete directory listing of three archives and
retention limit 2. -/
theorem retention_prune_deletes_oldest_beyond_limit_witness :
    (["c.zip", "a.zip", "b.zip"].length ≤ 2 →
      pruneDeleted ["c.zip", "a.zip", "b.zip"] 2 = []) ∧
    (2 < ["c.zip", "a.zip", "b.zip"].length →
      (pruneDeleted ["c.zip", "a.zip", "b.zip"] 2).length
          = ["c.zip", "a.zip", "b.zip"].length - 2 ∧
      pruneDeleted ["c.zip", "a.zip", "b.zip"] 2
          = (sortFiles ["c.zip", "a.zip", "b.zip"]).take
              (["c.zip", "a.zip", "b.zip"].length - 2) ∧
      List.Sorted (· ≤ ·) (sortFiles ["c.zip", "a.zip", "b.zip"]) ∧
      (sortFiles ["c.zip", "a.zip", "b.zip"]).Perm ["c.zip", "a.zip", "b.zip"]) :=
  retention_prune_deletes_oldest_beyond_limit ["c.zip", "a.zip", "b.zip"] 2 (by decide)

/-- C2: after pruning, at most R archives remain; every deleted archive
name is ≤ every remaining one (the retained archives are the
lexicographically greatest); when K > R the remaining archives are a
permutation of the greatest R entries of the sorted listing, and when
K ≤ R everything present at prune time remains. -/
theorem retention_prune_keeps_at_most_limit_newest
    (filelist : List String) (R : Nat) (hnd : filelist.Nodup) (hR : 0 < R) :
    (pruneRemaining filelist R).length ≤ R ∧
    (∀ d ∈ pruneDeleted filelist R, ∀ r ∈ pruneRemaining filelist R, d ≤ r) ∧
    (R < filelist.length →
      (pruneRemaining filelist R).Perm
        ((sortFiles filelist).drop (filelist.length - R))) ∧
    (filelist.length ≤ R → pruneRemaining filelist R = filelist) := by
  by_cases hK : R < filelist.length
  · have hdel : pruneDeleted filelist R
        = (sortFiles filelist).take (filelist.length - R) := by
      unfold pruneDeleted
      rw [if_pos (by rw [length_sortFiles]; exact hK), length_sortFiles]
    have hnds : (sortFiles filelist).Nodup := (sortFiles_perm filelist).symm.nodup hnd
    have hsplit : (sortFiles filelist)
        = (sortFiles filelist).take (filelist.length - R)
          ++ (sortFiles filelist).drop (filelist.length - R) :=
      (List.take_append_drop _ _).symm
    have hdisj : ∀ a ∈ (sortFiles filelist).drop (filelist.length - R),
        a ∉ (sortFiles filelist).take (filelist.length - R) := by
      intro a hadrop hatake
      have := hnds
      rw [hsplit, List.nodup_append] at this
      exact this.2.2 hatake hadrop
    have hfiltake : ((sortFiles filelist).take (filelist.length - R)).filter
        (fun f => !((pruneDeleted filelist R).elem f)) = [] := by
      apply List.filter_eq_nil_iff.mpr
      intro a ha
      have : a ∈ pruneDeleted filelist R := by rw [hdel]; exact ha
      simp [List.elem_eq_mem, this]
    have hfildrop : ((sortFiles filelist).drop (filelist.length - R)).filter
        (fun f => !((pruneDeleted filelist R).elem f))
        = (sortFiles filelist).drop (filelist.length - R) := by
      apply List.filter_eq_self.mpr
      intro a ha
      have : a ∉ pruneDeleted filelist R := by rw [hdel]; exact hdisj a ha
      simp [List.elem_eq_mem, this]
    have hperm : (pruneRemaining filelist R).Perm
        ((sortFiles filelist).drop (filelist.length - R)) := by
      unfold pruneRemaining
      have h1 : (filelist.filter (fun f => !((pruneDeleted filelist R).elem f))).Perm
          ((sortFiles filelist).filter (fun f => !((pruneDeleted filelist R).elem f))) :=
        List.Perm.filter _ (sortFiles_perm filelist).symm
      refine h1.trans ?_
      rw [show (sortFiles filelist).filter (fun f => !((pruneDeleted filelist R).elem f))
            = ((sortFiles filelist).take (filelist.length - R)
                ++ (sortFiles filelist).drop (filelist.length - R)).filter
                (fun f => !((pruneDeleted filelist R).elem f)) by rw [← hsplit]]
      rw [List.filter_append, hfiltake, hfildrop, List.nil_append]
    refine ⟨?_, ?_, fun _ => hperm, fun h => absurd hK (by omega)⟩
    · rw [hperm.length_eq, List.length_drop, length_sortFiles,
        Nat.sub_sub_self (Nat.le_of_lt hK)]
    · intro d hd r hr
      have hsorted := sortFiles_sorted filelist
      rw [List.Sorted, hsplit, List.pairwise_append] at hsorted
      have hdtake : d ∈ (sortFiles filelist).take (filelist.length - R) := by
        rw [← hdel]; exact hd
      have hrmem : r ∈ filelist ∧ ¬((pruneDeleted filelist R).elem r = true) := by
        have := hr
        unfold pruneRemaining at this
        rw [List.mem_filter] at this
        exact ⟨this.1, by simpa using this.2⟩
      have hrs : r ∈ (sortFiles filelist) := ((sortFiles_perm filelist).mem_iff).mpr hrmem.1
      have hrdrop : r ∈ (sortFiles filelist).drop (filelist.length - R) := by
        rw [hsplit, List.mem_append] at hrs
        rcases hrs with h | h
        · exfalso
          apply hrmem.2
          rw [List.elem_eq_mem]
          simp [hdel ▸ h]
        · exact h
      exact hsorted.2.2 d hdtake r hrdrop
  · have hdel : pruneDeleted filelist R = [] := by
      unfold pruneDeleted
      rw [if_neg (by rw [length_sortFiles]; omega)]
    have hrem : pruneRemaining filelist R = filelist := by
      unfold pruneRemaining
      rw [hdel]
      apply List.filter_eq_self.mpr
      intro a _
      rfl
    refine ⟨by rw [hrem]; omega, ?_, fun h => absurd h (by omega), fun _ => hrem⟩
    intro d hd
    rw [hdel] at hd
    exact absurd hd (List.not_mem_nil d)

/-- Witness for C2 at the same concrete listing. -/
theorem retention_prune_keeps_at_most_limit_newest_witness :
    (pruneRemaining ["c.zip", "a.zip", "b.zip"] 2).length ≤ 2 ∧
    (∀ d ∈ pruneDeleted ["c.zip", "a.zip", "b.zip"] 2,
      ∀ r ∈ pruneRemaining ["c.zip", "a.zip", "b.zip"] 2, d ≤ r) ∧
    (2 < ["c.zip", "a.zip", "b.zip"].length →
      (pruneRemaining ["c.zip", "a.zip", "b.zip"] 2).Perm
        ((sortFiles ["c.zip", "a.zip", "b.zip"]).drop
          (["c.zip", "a.zip", "b.zip"].length - 2))) ∧
    (["c.zip", "a.zip", "b.zip"].length ≤ 2 →
      pruneRemaining ["c.zip", "a.zip", "b.zip"] 2 = ["c.zip", "a.zip", "b.zip"]) :=
  retention_prune_keeps_at_most_limit_newest ["c.zip", "a.zip", "b.zip"] 2
    (by decide) (by decide)

/-- C3, refuted (code bug): a filename of length 32 that contains a
character that is not a hexadecimal digit can still be accepted and
copied, because CPython's `int(file, 16)` also accepts a `0x`/`0X`
marker (as well as signs, surrounding whitespace and underscores).  The
name `0x` followed by thirty zeros has length 32, contains the non-hex
character `x`, and is selected and copied by `copy_json_files`, contrary
to the script's own comment that only names that are strings of 32
hexadecimal digits (portal Item UUIDs) are copied. -/
theorem copy_selector_accepts_radix_marked_name :
    "0x000000000000000000000000000000".data.length = 32 ∧
    (∃ c ∈ "0x000000000000000000000000000000".data, isPyHexDigit c = false) ∧
    selectName "0x000000000000000000000000000000" = true ∧
    copyJsonFiles
      [{ dirs := ["D:", "arcgisportal", "content", "items", "sub"],
         name := "0x000000000000000000000000000000", content := 0, copyFails := false }] []
      = Except.ok [("0x000000000000000000000000000000", 0)] :=
  ⟨by decide, by decide, by decide, rfl⟩

/-- C4: every filename of length exactly 32 consisting entirely of
hexadecimal digits, in any mixture of cases, is selected by
`copy_json_files` and ends up in the staging folder. -/
theorem copy_selector_includes_all_hex_names
    (files : List WalkFile) (f : WalkFile)
    (hmem : f ∈ files)
    (hnf : ∀ g ∈ files, g.copyFails = false)
    (hlen : f.name.data.length = 32)
    (hhex : ∀ c ∈ f.name.data, isPyHexDigit c = true) :
    ∃ st, copyJsonFiles files [] = Except.ok st ∧ f.name ∈ st.map Prod.fst :=
  ⟨stageFold files [], copyJsonFiles_ok files [] hnf,
    mem_keys_stageFold files [] hmem (selectName_of_hex hlen hhex)⟩

/-- Witness for C4 at a mixed-case 32-hex-digit filename. -/
theorem copy_selector_includes_all_hex_names_witness :
    ∃ st, copyJsonFiles
        [{ dirs := ["D:", "arcgisportal", "content", "items", "ab"],
           name := "0123456789abcdefABCDEF0123456789", content := 7, copyFails := false }] []
        = Except.ok st ∧
      "0123456789abcdefABCDEF0123456789" ∈ st.map Prod.fst :=
  copy_selector_includes_all_hex_names
    [{ dirs := ["D:", "arcgisportal", "content", "items", "ab"],
       name := "0123456789abcdefABCDEF0123456789", content := 7, copyFails := false }]
    { dirs := ["D:", "arcgisportal", "content", "items", "ab"],
      name := "0123456789abcdefABCDEF0123456789", content := 7, copyFails := false }
    (by decide) (by decide) (by decide) (by decide)

/-- C5: archiving N staged files yields an archive with exactly N
entries, whose names are, in order, the staged files' base filenames;
when the base filenames contain no path separator, neither does any
archive entry name (the archive is flat). -/
theorem archive_flat_entries_match_staged_files
    (files : List StagedFile)
    (hsep : ∀ f ∈ files, hasSep f.base = false) :
    (zipBuild files).entries.length = files.length ∧
    (zipBuild files).entries.map Prod.fst = files.map StagedFile.base ∧
    ∀ e ∈ (zipBuild files).entries, hasSep e.1 = false := by
  refine ⟨?_, ?_, ?_⟩ <;> rw [zipBuild_entries]
  · rw [List.length_map]
  · rw [List.map_map]
    rfl
  · intro e he
    rw [List.mem_map] at he
    obtain ⟨f, hf, rfl⟩ := he
    exact hsep f hf

/-- Witness for C5 at a two-file staging folder. -/
theorem archive_flat_entries_match_staged_files_witness :
    (zipBuild [{ dirs := ["D:", "Backups_portal_items"], base := "a0", content := 3 },
               { dirs := ["D:", "Backups_portal_items"], base := "b1", content := 4 }]).entries.length
        = 2 ∧
    (zipBuild [{ dirs := ["D:", "Backups_portal_items"], base := "a0", content := 3 },
               { dirs := ["D:", "Backups_portal_items"], base := "b1", content := 4 }]).entries.map
        Prod.fst = ["a0", "b1"] ∧
    ∀ e ∈ (zipBuild [{ dirs := ["D:", "Backups_portal_items"], base := "a0", content := 3 },
                     { dirs := ["D:", "Backups_portal_items"], base := "b1", content := 4 }]).entries,
      hasSep e.1 = false :=
  archive_flat_entries_match_staged_files
    [{ dirs := ["D:", "Backups_portal_items"], base := "a0", content := 3 },
     { dirs := ["D:", "Backups_portal_items"], base := "b1", content := 4 }] (by decide)

/-- C6: on a successful run the build loop deletes every staged copy
(the staging folder ends empty) and the staging folder itself is then
removed by `arch_folder.rmdir()`. -/
theorem archive_success_clears_staging (files : List StagedFile) :
    (afterArchiveCleanup files).1.staged = [] ∧ (afterArchiveCleanup files).2 = true := by
  constructor <;> simp [afterArchiveCleanup, zipBuild_staged]

/-- C7, refuted: when writing the second of three staged files into the
archive fails, the run aborts, yet the archive file is NOT removed from
disk — it remains, holding the entry written before the failure.  The
build block has no exception handler and never deletes `arch_zip`, so the
claim that no partial archive remains is false. -/
theorem write_failure_keeps_archive_on_disk_cex :
    raisedErrorF (fun g => g.base == "b")
      [{ dirs := [], base := "a", content := 0 },
       { dirs := [], base := "b", content := 1 },
       { dirs := [], base := "c", content := 2 }] = true ∧
    archiveOnDiskF (fun g => g.base == "b")
      [{ dirs := [], base := "a", content := 0 },
       { dirs := [], base := "b", content := 1 },
       { dirs := [], base := "c", content := 2 }] = some [("a", 0)] ∧
    archiveOnDiskF (fun g => g.base == "b")
      [{ dirs := [], base := "a", content := 0 },
       { dirs := [], base := "b", content := 1 },
       { dirs := [], base := "c", content := 2 }] ≠ none := by
  refine ⟨by decide, rfl, ?_⟩
  intro h
  simp [archiveOnDiskF] at h

/-- C7 as amended: when an `outzip.write` fails partway through the
build, the run aborts with the propagated exception, the archive file
remains on disk holding exactly the entries written before the failure,
and the staging folder is not removed. -/
theorem write_failure_leaves_archive_with_written_entries
    (fail : StagedFile → Bool) (pre post : List StagedFile) (f : StagedFile)
    (hpre : ∀ g ∈ pre, fail g = false) (hf : fail f = true) :
    raisedErrorF fail (pre ++ f :: post) = true ∧
    archiveOnDiskF fail (pre ++ f :: post)
      = some (pre.map (fun g => (g.base, g.content))) ∧
    folderRemovedF fail (pre ++ f :: post) = false := by
  have key : (zipBuildF fail (pre ++ f :: post)).failed = true ∧
      (zipBuildF fail (pre ++ f :: post)).entries
        = pre.map (fun g => (g.base, g.content)) := by
    unfold zipBuildF
    rw [List.foldl_append, List.foldl_cons]
    obtain ⟨h1, h2⟩ := foldl_zipWriteStepF_ok fail pre
      { entries := [], staged := pre ++ f :: post, failed := false } rfl hpre
    have hstep : zipWriteStepF fail
        (List.foldl (zipWriteStepF fail)
          { entries := [], staged := pre ++ f :: post, failed := false } pre) f
        = { entries := (List.foldl (zipWriteStepF fail)
              { entries := [], staged := pre ++ f :: post, failed := false } pre).entries,
            staged := (List.foldl (zipWriteStepF fail)
              { entries := [], staged := pre ++ f :: post, failed := false } pre).staged,
            failed := true } := by
      simp [zipWriteStepF, h1, hf]
    rw [hstep, foldl_zipWriteStepF_frozen fail post _ rfl]
    refine ⟨rfl, ?_⟩
    show (List.foldl (zipWriteStepF fail)
        { entries := [], staged := pre ++ f :: post, failed := false } pre).entries
      = pre.map (fun g => (g.base, g.content))
    rw [h2]
    rfl
  exact ⟨key.1, by unfold archiveOnDiskF; rw [key.2],
    by unfold folderRemovedF; rw [key.1]; rfl⟩

/-- Witness for the amended C7 at a concrete three-file staging folder
whose middle file fails to write. -/
theorem write_failure_leaves_archive_with_written_entries_witness :
    raisedErrorF (fun g => g.base == "y")
      [{ dirs := [], base := "x", content := 10 },
       { dirs := [], base := "y", content := 11 },
       { dirs := [], base := "z", content := 12 }] = true ∧
    archiveOnDiskF (fun g => g.base == "y")
      [{ dirs := [], base := "x", content := 10 },
       { dirs := [], base := "y", content := 11 },
       { dirs := [], base := "z", content := 12 }] = some [("x", 10)] ∧
    folderRemovedF (fun g => g.base == "y")
      [{ dirs := [], base := "x", content := 10 },
       { dirs := [], base := "y", content := 11 },
       { dirs := [], base := "z", content := 12 }] = false :=
  write_failure_leaves_archive_with_written_entries (fun g => g.base == "y")
    [{ dirs := [], base := "x", content := 10 }]
    [{ dirs := [], base := "z", content := 12 }]
    { dirs := [], base := "y", content := 11 } (by decide) (by decide)

/-- C8, refuted: two runs with the same minute-resolution timestamp use
the SAME staging name (not a distinct one), raise no error (the bare
`except` swallows any `mkdir` failure and an existing folder is silently
reused; no `StagingError` exists), and the second run silently overwrites
the first run's archive, because `ZipFile(arch_zip, mode='w')` truncates
an existing file. -/
theorem same_minute_rerun_overwrites_archive_cex :
    (runOnce "2025_07_08_1014"
        ((runOnce "2025_07_08_1014" { folders := [], zips := [] }).1)).2.stagingName
      = (runOnce "2025_07_08_1014" { folders := [], zips := [] }).2.stagingName ∧
    (runOnce "2025_07_08_1014"
        ((runOnce "2025_07_08_1014" { folders := [], zips := [] }).1)).2.stagingErrorRaised
      = false ∧
    (runOnce "2025_07_08_1014"
        ((runOnce "2025_07_08_1014" { folders := [], zips := [] }).1)).2.archiveOverwritten
      = true := by
  refine ⟨rfl, rfl, ?_⟩
  decide

/-- C8 as amended: re-running within the same minute always reuses the
identical staging name, never raises, and the second run silently
overwrites the archive produced by the first. -/
theorem same_minute_rerun_reuses_name_and_overwrites (ts : String) (d : Dest) :
    (runOnce ts (runOnce ts d).1).2.stagingName = (runOnce ts d).2.stagingName ∧
    (runOnce ts (runOnce ts d).1).2.stagingErrorRaised = false ∧
    (runOnce ts (runOnce ts d).1).2.archiveOverwritten = true := by
  refine ⟨rfl, rfl, ?_⟩
  show List.elem ("items_" ++ ts ++ ".zip") (runOnce ts d).1.zips = true
  show List.elem ("items_" ++ ts ++ ".zip")
    (if List.elem ("items_" ++ ts ++ ".zip") d.zips then d.zips
     else ("items_" ++ ts ++ ".zip") :: d.zips) = true
  cases h : List.elem ("items_" ++ ts ++ ".zip") d.zips
  · rw [if_neg Bool.false_ne_true]
    simp [List.elem_cons]
  · rw [if_pos rfl]
    exact h

/-- C9, refuted: a copy failure (`shutil.copy2` raising an `OSError`) on
one selected file is not caught by the `except ValueError` handler, so it
aborts the whole run; the second valid file is never copied. -/
theorem copy_failure_aborts_run_cex :
    selectName "00000000000000000000000000000001" = true ∧
    copyJsonFiles
      [{ dirs := ["D:", "items", "f0"], name := "00000000000000000000000000000000",
         content := 0, copyFails := true },
       { dirs := ["D:", "items", "f1"], name := "00000000000000000000000000000001",
         content := 1, copyFails := false }] []
      = Except.error () := by
  exact ⟨by decide, rfl⟩

/-- C9 as amended: a `ValueError` from filename parsing is caught and the
file skipped, but a failure of the copy operation itself on a selected
file propagates out of `copy_json_files` and aborts the run. -/
theorem copy_failure_on_selected_file_aborts
    (pre post : List WalkFile) (f : WalkFile) (st : List (String × Nat))
    (hpre : ∀ g ∈ pre, selectName g.name = true → g.copyFails = false)
    (hsel : selectName f.name = true) (hfail : f.copyFails = true) :
    copyJsonFiles (pre ++ f :: post) st = Except.error () := by
  induction pre generalizing st with
  | nil =>
    have hand := hsel
    unfold selectName at hand
    rw [Bool.and_eq_true] at hand
    obtain ⟨h32, hhex⟩ := hand
    show copyJsonFiles (f :: post) st = Except.error ()
    unfold copyJsonFiles
    rw [if_pos h32, if_pos hhex, if_pos hfail]
  | cons g gs ih =>
    have hg := hpre g (List.mem_cons_self g gs)
    have hgs : ∀ x ∈ gs, selectName x.name = true → x.copyFails = false :=
      fun x hx => hpre x (List.mem_cons_of_mem g hx)
    show copyJsonFiles (g :: (gs ++ f :: post)) st = Except.error ()
    unfold copyJsonFiles
    cases h32 : g.name.data.length == 32
    · rw [if_neg Bool.false_ne_true]
      exact ih st hgs
    · rw [if_pos rfl]
      cases hhex : pyIntHexOk g.name.data
      · rw [if_neg Bool.false_ne_true]
        exact ih st hgs
      · rw [if_pos rfl]
        have hselg : selectName g.name = true := by
          unfold selectName
          rw [h32, hhex]
          rfl
        rw [hg hselg]
        simp only [if_neg Bool.false_ne_true]
        exact ih (upsert st g.name g.content) hgs

/-- Witness for the amended C9: a walk in which an invalid name is
skipped, then a selected file's copy fails, aborting the run. -/
theorem copy_failure_on_selected_file_aborts_witness :
    copyJsonFiles
      [{ dirs := ["D:", "items", "g"], name := "readme.txt", content := 9, copyFails := false },
       { dirs := ["D:", "items", "f"], name := "00000000000000000000000000000000",
         content := 0, copyFails := true },
       { dirs := ["D:", "items", "h"], name := "00000000000000000000000000000001",
         content := 1, copyFails := false }] []
      = Except.error () :=
  copy_failure_on_selected_file_aborts
    [{ dirs := ["D:", "items", "g"], name := "readme.txt", content := 9, copyFails := false }]
    [{ dirs := ["D:", "items", "h"], name := "00000000000000000000000000000001",
       content := 1, copyFails := false }]
    { dirs := ["D:", "items", "f"], name := "00000000000000000000000000000000",
      content := 0, copyFails := true } []
    (by decide) (by decide) (by decide)

/-- C10: when two selected walked files share a base filename, the later
copy overwrites the earlier one in the staging folder, and the finished
archive holds exactly one entry under that name, with the content of the
file the walk visited last. -/
theorem duplicate_basename_last_copy_wins
    (files : List WalkFile) (f1 f2 : WalkFile) (n : String)
    (hnf : ∀ g ∈ files, g.copyFails = false)
    (h1 : f1 ∈ files) (h2 : f2 ∈ files)
    (hs1 : selectName f1.name = true) (hs2 : selectName f2.name = true)
    (hn1 : f1.name = n) (hn2 : f2.name = n)
    (hdirs : f1.dirs ≠ f2.dirs) :
    ∃ st g, copyJsonFiles files [] = Except.ok st ∧
      (files.filter (fun q => selectName q.name && (q.name == n))).getLast? = some g ∧
      List.lookup n st = some g.content ∧
      ∀ dirs, (zipBuild (stagedOf st dirs)).entries.filter (fun e => e.1 == n)
        = [(n, g.content)] := by
  have hok := copyJsonFiles_ok files [] hnf
  have hf2 : f2 ∈ files.filter (fun q => selectName q.name && (q.name == n)) := by
    rw [List.mem_filter]
    exact ⟨h2, by rw [hs2, Bool.true_and]; exact beq_iff_eq.mpr hn2⟩
  obtain ⟨g, hg⟩ : ∃ g,
      (files.filter (fun q => selectName q.name && (q.name == n))).getLast? = some g := by
    cases hlast : (files.filter (fun q => selectName q.name && (q.name == n))).getLast? with
    | none =>
      rw [List.getLast?_eq_none_iff] at hlast
      rw [hlast] at hf2
      exact absurd hf2 (List.not_mem_nil f2)
    | some g => exact ⟨g, rfl⟩
  have hlook : List.lookup n (stageFold files []) = some g.content :=
    lookup_stageFold_last files [] hg
  have hnodup : ((stageFold files []).map Prod.fst).Nodup :=
    nodup_keys_stageFold files [] (by simp)
  have hmem : (n, g.content) ∈ stageFold files [] := lookup_mem hlook
  refine ⟨stageFold files [], g, hok, hg, hlook, ?_⟩
  intro dirs
  rw [zipBuild_entries]
  have hst : (stagedOf (stageFold files []) dirs).map (fun q => (q.base, q.content))
      = stageFold files [] := by
    unfold stagedOf
    rw [List.map_map]
    show (stageFold files []).map (fun p => (p.1, p.2)) = stageFold files []
    rw [show (fun p : String × Nat => (p.1, p.2)) = id from funext (fun p => rfl), List.map_id]
  rw [hst]
  exact filter_key_singleton (stageFold files []) n g.content hnodup hmem

/-- Witness for C10: two selected files in different subdirectories share
the same 32-hex-digit name; the archive holds one entry with the second
file's content. -/
theorem duplicate_basename_last_copy_wins_witness :
    ∃ st g, copyJsonFiles
        [{ dirs := ["D:", "items", "d1"], name := "00000000000000000000000000000000",
           content := 5, copyFails := false },
         { dirs := ["D:", "items", "d2"], name := "00000000000000000000000000000000",
           content := 7, copyFails := false }] []
        = Except.ok st ∧
      (([{ dirs := ["D:", "items", "d1"], name := "00000000000000000000000000000000",
           content := 5, copyFails := false },
         { dirs := ["D:", "items", "d2"], name := "00000000000000000000000000000000",
           content := 7, copyFails := false }] : List WalkFile).filter
        (fun q => selectName q.name && (q.name == "00000000000000000000000000000000"))).getLast?
        = some g ∧
      List.lookup "00000000000000000000000000000000" st = some g.content ∧
      ∀ dirs, (zipBuild (stagedOf st dirs)).entries.filter
          (fun e => e.1 == "00000000000000000000000000000000")
        = [("00000000000000000000000000000000", g.content)] :=
  duplicate_basename_last_copy_wins
    [{ dirs := ["D:", "items", "d1"], name := "00000000000000000000000000000000",
       content := 5, copyFails := false },
     { dirs := ["D:", "items", "d2"], name := "00000000000000000000000000000000",
       content := 7, copyFails := false }]
    ({ dirs := ["D:", "items", "d1"], name := "00000000000000000000000000000000",
       content := 5, copyFails := false } : WalkFile)
    ({ dirs := ["D:", "items", "d2"], name := "00000000000000000000000000000000",
       content := 7, copyFails := false } : WalkFile)
    "00000000000000000000000000000000"
    (by decide) (by decide) (by decide) (by decide) (by decide) (by decide) (by decide)
    (by decide)

end Backups
